import Mathlib

/-!
Shallow embedding of `src/Fractals/TreeFractal.js` (the compiled form of the
TypeScript source in this repository) and proofs about it.

The program has two components:

* `BlockMap` — a `width × height` grid of optional `Block` cells
  (`setBlock`, `getBlock`, and `drawLine`, a Bresenham-style rasterizer);
* `FractalTree` — a recursive generator (`drawTree`) that computes branch
  endpoints with `cos`/`sin` and paints each branch with `drawLine`.

Modelling conventions, justified against the JS semantics:

* Coordinates are `ℤ`.  Every call site of the grid operations passes
  integers (`drawTree` rounds with `Math.round` before calling `drawLine`).
* The JS backing store `map : Array<Array<Block>>` is modelled as a total
  function `ℤ → ℤ → Option Block` (`none` = the slot is `undefined`).  This
  also captures JS writes at negative inner indices, which succeed as plain
  properties on the inner array object.
* The error accumulator of `drawLine` is `(dx>dy ? dx : -dy)/2`, a genuine
  half-integer, so it is modelled as `ℚ`.
* The `while` loop of `drawLine` is modelled with an explicit fuel
  (`max dx dy + 1`); the theorem `lineState_terminates` below shows the loop
  reaches its exit condition after exactly `max dx dy` iterations, so this
  fuel is never exhausted and the encoding agrees with the JS `while`.
* `Math.cos`, `Math.sin`, `Math.PI/180` and `Math.random()` are IEEE doubles
  in JS; they enter the program only through `drawTree`.  They are abstracted
  as an environment (`TreeEnv`) of arbitrary rational-valued functions, with
  the random draws keyed by the recursion path of the call that makes them;
  every theorem about `drawTree` is proved for all environments, hence in
  particular for any idealisation of the actual float behaviour.  The claims
  proved about `drawTree` (call counts, thickness, colour format, depth-0
  behaviour) are independent of the numeric values these functions return.
* The recursion parameter `depth` of `drawTree` is modelled as `ℕ`: the JS
  guard `depth > 0` makes every non-positive depth terminal, exactly as `0`
  is terminal here, and the recursive calls use `depth - 1`.
-/

set_option maxHeartbeats 1000000

namespace TreeFractal

/-- `Block` from the source: per-cell colour and thickness. -/
structure Block where
  color : String
  thickness : Int
  deriving DecidableEq

/-- `BlockMap`: the pixel grid.  `width`/`height` are the construction
parameters; `cells` is the backing store (`none` = `undefined` slot). -/
structure BlockMap where
  width : Nat
  height : Nat
  cells : Int → Int → Option Block

/-- `new BlockMap(width, height)`: a grid of `width` empty columns of
capacity `height`; every slot starts `undefined`. -/
def mkBlockMap (w h : Nat) : BlockMap := ⟨w, h, fun _ _ => none⟩

/-- `BlockMap.prototype.setBlock(x, y, thickness, color)`.  The three guards
mirror the source: `x < this.map.length`, then the truthiness test
`if (this.map[x])` — an inner array exists exactly when `0 ≤ x < width` —
then `y < this.map[x].length`.  There is no lower bound on `y`: a write at a
negative `y` does happen in JS (a plain property on the inner array), which
the total-function cell store represents directly.  No guard can throw. -/
def BlockMap.setBlock (m : BlockMap) (x y : Int) (t : Int) (c : String) : BlockMap :=
  if x < (m.width : Int) then
    if 0 ≤ x then
      if y < (m.height : Int) then
        { m with cells := fun a b => if a = x ∧ b = y then some ⟨c, t⟩ else m.cells a b }
      else m
    else m
  else m

/-- The ways `getBlock` can fail: the two explicit `RangeError` throws of the
source, and the implicit `TypeError` raised by evaluating
`this.map[x].length` when `this.map[x]` is `undefined` (that is, when
`x = width` — which passes the `x <= this.map.length` test — or `x < 0`). -/
inductive BoundsErr where
  | rangeX
  | rangeY
  | typeUndef
  deriving DecidableEq

/-- `BlockMap.prototype.getBlock(x, y)`.  Faithful to the source's `<=`
bounds tests: `x <= this.map.length` then `y <= this.map[x].length`, where
evaluating `this.map[x].length` throws a `TypeError` unless `0 ≤ x < width`. -/
def BlockMap.getBlock (m : BlockMap) (x y : Int) : Except BoundsErr (Option Block) :=
  if x ≤ (m.width : Int) then
    if 0 ≤ x ∧ x < (m.width : Int) then
      if y ≤ (m.height : Int) then
        Except.ok (m.cells x y)
      else
        Except.error BoundsErr.rangeY
    else
      Except.error BoundsErr.typeUndef
  else
    Except.error BoundsErr.rangeX

/-- `Math.abs` on an integer argument. -/
def jsAbs (a : Int) : Int := if a < 0 then -a else a

/-- State of the `drawLine` loop: the mutated `x0`, `y0` and `err`. -/
structure LineState where
  x : Int
  y : Int
  err : ℚ
  deriving DecidableEq

/-- One iteration of the `drawLine` loop body (the part after `setBlock`).
Both source `if`s test `e2`, the value of `err` saved before either update,
so the two sequential `if`s expand into this four-way case split:
`if (e2 > -dx) { err -= dy; x0 += sx; }  if (e2 < dy) { err += dx; y0 += sy; }`. -/
def lineStep (dx dy sx sy : Int) (s : LineState) : LineState :=
  if s.err > -(dx : ℚ) then
    if s.err < (dy : ℚ) then ⟨s.x + sx, s.y + sy, s.err - (dy : ℚ) + (dx : ℚ)⟩
    else ⟨s.x + sx, s.y, s.err - (dy : ℚ)⟩
  else
    if s.err < (dy : ℚ) then ⟨s.x, s.y + sy, s.err + (dx : ℚ)⟩
    else s

/-- The step function of `drawLine`'s loop with the source's parameter
set-up: `dx = Math.abs(x1-x0)`, `sx = x0 < x1 ? 1 : -1`, and likewise
for `y`. -/
def lineStepOf (x0 x1 y0 y1 : Int) : LineState → LineState :=
  lineStep (jsAbs (x1 - x0)) (jsAbs (y1 - y0)) (if x0 < x1 then 1 else -1) (if y0 < y1 then 1 else -1)

/-- The initial loop state of `drawLine`:
`var err = ((dx > dy) ? dx : -dy) / 2;` (a rational half-integer). -/
def lineStart (x0 x1 y0 y1 : Int) : LineState :=
  ⟨x0, y0,
    (if jsAbs (x1 - x0) > jsAbs (y1 - y0) then ((jsAbs (x1 - x0) : Int) : ℚ)
      else -((jsAbs (y1 - y0) : Int) : ℚ)) / 2⟩

/-- The loop state of `drawLine` after `k` iterations of the body. -/
def lineState (x0 x1 y0 y1 : Int) : Nat → LineState
  | 0 => lineStart x0 x1 y0 y1
  | k + 1 => lineStepOf x0 x1 y0 y1 (lineState x0 x1 y0 y1 k)

/-- The cell painted at iteration `k` of the `drawLine` loop. -/
def linePos (x0 x1 y0 y1 : Int) (k : Nat) : Int × Int :=
  ((lineState x0 x1 y0 y1 k).x, (lineState x0 x1 y0 y1 k).y)

/-- `max(|x1-x0|, |y1-y0|)`: the exact number of loop iterations `drawLine`
performs (proved in `lineState_terminates`). -/
def lineN (x0 x1 y0 y1 : Int) : Nat := (max (jsAbs (x1 - x0)) (jsAbs (y1 - y0))).toNat

/-- The list of cells `drawLine(x0,x1,y0,y1,...)` paints, in paint order. -/
def lineTrace (x0 x1 y0 y1 : Int) : List (Int × Int) :=
  (List.range (lineN x0 x1 y0 y1)).map (linePos x0 x1 y0 y1)

/-- The `while (!(x0 === x1 && y0 === y1))` loop of `drawLine`, with fuel.
Each round first tests the exit condition, then paints the current cell via
`setBlock` and advances the state.  With fuel at least `lineN + 1` the fuel
is never exhausted (`lineState_terminates`), so this is exactly the JS loop. -/
def lineLoop (tx ty : Int) (step : LineState → LineState) (t : Int) (c : String) :
    Nat → LineState → BlockMap → BlockMap
  | 0, _, m => m
  | fuel + 1, s, m =>
    if s.x = tx ∧ s.y = ty then m
    else lineLoop tx ty step t c fuel (step s) (m.setBlock s.x s.y t c)

/-- `BlockMap.prototype.drawLine(x0, x1, y0, y1, thickness, color)` — note
the source's parameter order: both x's, then both y's. -/
def BlockMap.drawLine (m : BlockMap) (x0 x1 y0 y1 : Int) (t : Int) (c : String) : BlockMap :=
  lineLoop x1 y1 (lineStepOf x0 x1 y0 y1) t c
    (lineN x0 x1 y0 y1 + 1) (lineStart x0 x1 y0 y1) m

/-- Painting a list of cells by repeated `setBlock`, left to right; the shape
of the writes `drawLine`'s loop issues. -/
def paintList (m : BlockMap) (t : Int) (c : String) (ps : List (Int × Int)) : BlockMap :=
  ps.foldl (fun g p => g.setBlock p.1 p.2 t c) m

/-- 8-neighbourhood adjacency of two distinct grid cells. -/
def adj8 (p q : Int × Int) : Prop :=
  |q.1 - p.1| ≤ 1 ∧ |q.2 - p.2| ≤ 1 ∧ p ≠ q

/-- The full specification of one `drawLine` call between in-bounds
endpoints: the painted cells are `lineTrace`, a sequence of
`max(|x1-x0|,|y1-y0|)` pairwise-distinct 8-connected cells starting at
`(x0, y0)` and not containing `(x1, y1)`; the grid afterwards holds
`{color, thickness}` exactly on those cells and is untouched elsewhere. -/
def LineDrawOk (m : BlockMap) (x0 x1 y0 y1 : Int) (t : Int) (c : String) : Prop :=
  (lineTrace x0 x1 y0 y1).length = lineN x0 x1 y0 y1 ∧
  (lineTrace x0 x1 y0 y1).Nodup ∧
  (lineTrace x0 x1 y0 y1).Chain' adj8 ∧
  (lineTrace x0 x1 y0 y1).head? = some (x0, y0) ∧
  (x1, y1) ∉ lineTrace x0 x1 y0 y1 ∧
  ∀ a b : Int, (m.drawLine x0 x1 y0 y1 t c).cells a b =
    if (a, b) ∈ lineTrace x0 x1 y0 y1 then some ⟨c, t⟩ else m.cells a b

/-- `Number.prototype.toString(16)` for a non-negative integer: unpadded
lowercase base-16 digits. -/
def hexString (n : Nat) : String := (Nat.toDigits 16 n).asString

/-- The characters allowed in a hex colour component. -/
def hexDigits : List Char := "0123456789abcdefABCDEF".toList

/-- A colour string of the exact form `#RRGGBB`: seven characters, a leading
`#`, six hex digits. -/
def isSixHexColor (s : String) : Prop :=
  s.length = 7 ∧ s.toList.head? = some '#' ∧ ∀ ch ∈ s.toList.tail, ch ∈ hexDigits

/-- `FractalTree.prototype.random(min, max)` =
`Math.floor(Math.random() * (max - min + 1)) + min`, with the `Math.random()`
draw `r` passed in explicitly. -/
def jsRandom (r : ℚ) (lo hi : Int) : Int := ⌊r * ((hi : ℚ) - (lo : ℚ) + 1)⌋ + lo

/-- The leaf colour expression
`'#' + (Math.random() * 0xFFFFFF << 0).toString(16)` with the `Math.random()`
draw `r` passed in explicitly.  For `r ∈ [0, 1)` the shift-truncation `<< 0`
is exactly `Int.floor`, and the result is a non-negative integer below
`0xFFFFFF = 16777215`. -/
def leafColor (r : ℚ) : String := "#" ++ hexString (⌊r * 16777215⌋).toNat

/-- Environment for `drawTree`: the transcendental functions
(`Math.cos`, `Math.sin`, the constant `deg2Rad = Math.PI/180`) and the
`Math.random()` draws, the latter keyed by the recursion path (`false` =
first/left recursive call, `true` = second/right) of the call making them.
`colorRand p` is the draw for the leaf colour at the node reached by path
`p`; `angleRand p side` is the draw inside `this.random(20, 30)` for that
node's `side` child. -/
structure TreeEnv where
  cosF : ℚ → ℚ
  sinF : ℚ → ℚ
  deg2Rad : ℚ
  colorRand : List Bool → ℚ
  angleRand : List Bool → Bool → ℚ

/-- One line segment passed to `drawLine` by `drawTree`, in the source's
argument order `(x0, x1, y0, y1, thickness, color)`. -/
structure Segment where
  x0 : Int
  x1 : Int
  y0 : Int
  y1 : Int
  thickness : Int
  color : String
  deriving DecidableEq

/-- `FractalTree.prototype.drawTree(x1, y1, angle, depth)`, returning the
list of `drawLine` calls it issues, in issue order (each node draws its own
segment, then recurses left with `angle - random(20,30)`, then right with
`angle + random(20,30)`).  The generation never reads the grid, so the grid
produced by the source is `paintSegments` of this list (painting is factored
out below).  `depth` is `ℕ`: the source guard `depth > 0` makes every
non-positive depth terminal exactly as `0` is terminal here. -/
def drawTree (env : TreeEnv) : ℚ → ℚ → ℚ → Nat → List Bool → List Segment
  | _, _, _, 0, _ => []
  | x1, y1, angle, n + 1, path =>
    let depth : Nat := n + 1
    let x2 : ℚ := x1 + env.cosF (angle * env.deg2Rad) * (depth : ℚ) * 10
    let y2 : ℚ := y1 + env.sinF (angle * env.deg2Rad) * (depth : ℚ) * 10
    let color : String :=
      if depth < 3 then leafColor (env.colorRand path) else "#000000"
    ⟨round x1, round x2, round y1, round y2, (depth : Int), color⟩ ::
      (drawTree env x2 y2 (angle - ((jsRandom (env.angleRand path false) 20 30 : Int) : ℚ))
          n (path ++ [false]) ++
        drawTree env x2 y2 (angle + ((jsRandom (env.angleRand path true) 20 30 : Int) : ℚ))
          n (path ++ [true]))

/-- Replaying the `drawLine` calls of a segment list onto a grid. -/
def paintSegments (m : BlockMap) (ss : List Segment) : BlockMap :=
  ss.foldl (fun g s => g.drawLine s.x0 s.x1 s.y0 s.y1 s.thickness s.color) m

/-- The `FractalTree` constructor: generation starts at `(450, 700)` with
angle `-90` and the given depth. -/
def fractalTreeSegments (env : TreeEnv) (depth : Nat) : List Segment :=
  drawTree env 450 700 (-90) depth []

/-- A concrete all-zero environment, for evaluating `drawTree` at points. -/
def envZero : TreeEnv := ⟨fun _ => 0, fun _ => 0, 0, fun _ => 0, fun _ _ => 0⟩

/-- A concrete environment whose colour draw makes the leaf colour come out
as `#ff`: `⌊(255/16777215) * 16777215⌋ = 255` and `255` is `ff` in hex. -/
def envFF : TreeEnv := ⟨fun _ => 0, fun _ => 0, 0, fun _ => (255 : ℚ) / 16777215, fun _ _ => 0⟩

end TreeFractal

namespace TreeFractal

/-! ## Grid read/write claims -/

/-- C3 counterexample: on a 2×2 grid, `getBlock` at `y = height` (with an
in-range column `x = 0`) does not raise a bounds error — the `<=` test lets
it through and it returns the (absent) cell.  The claim asserts this call
raises. -/
theorem claim_C3_cex : (mkBlockMap 2 2).getBlock 0 2 = Except.ok none := by rfl

/-- C3 (amended): `getBlock` raises only beyond the `<=` bounds tests.  At
in-range `x` (`0 ≤ x < width`) and any `y ≤ height` — including the
out-of-bounds `y = height` — it does not raise and returns the cell slot; at
`x = width` (or `x < 0`) it raises, but via the implicit `TypeError` from
`this.map[x].length`, not the `RangeError` bounds check; `x > width` raises
`RangeError "x"`, and `y > height` at in-range `x` raises `RangeError "y"`.
In particular in-range coordinates never raise. -/
theorem claim_C3 (m : BlockMap) (x y : Int) :
    (0 ≤ x → x < (m.width : Int) → y ≤ (m.height : Int) →
      m.getBlock x y = Except.ok (m.cells x y)) ∧
    (x = (m.width : Int) → m.getBlock x y = Except.error BoundsErr.typeUndef) ∧
    (x < 0 → m.getBlock x y = Except.error BoundsErr.typeUndef) ∧
    ((m.width : Int) < x → m.getBlock x y = Except.error BoundsErr.rangeX) ∧
    (0 ≤ x → x < (m.width : Int) → (m.height : Int) < y →
      m.getBlock x y = Except.error BoundsErr.rangeY) := by
  unfold BlockMap.getBlock
  refine ⟨?_, ?_, ?_, ?_, ?_⟩ <;> intros <;> split_ifs <;> first | rfl | omega

/-- C3 witness: concrete instances of the amended bounds behaviour on a 2×2
grid: an in-range read returns the slot value without raising. -/
theorem claim_C3_witness : (mkBlockMap 2 2).getBlock 1 1 = Except.ok ((mkBlockMap 2 2).cells 1 1) :=
  (claim_C3 (mkBlockMap 2 2) 1 1).1 (by decide) (by decide) (by decide)

/-- C4: an out-of-bounds `setBlock` (`x < 0`, `y < 0`, `x ≥ width` or
`y ≥ height`) never raises (no guard of `setBlock` can throw — it is a total
function here) and leaves the grid's dimensions and every in-bounds cell
unchanged.  (For `y < 0` at an in-range `x` the JS write does land on a
negative inner index, which no in-bounds read can see.) -/
theorem claim_C4 (m : BlockMap) (x y t : Int) (c : String)
    (h : x < 0 ∨ y < 0 ∨ (m.width : Int) ≤ x ∨ (m.height : Int) ≤ y) :
    (m.setBlock x y t c).width = m.width ∧
    (m.setBlock x y t c).height = m.height ∧
    ∀ a b : Int, 0 ≤ a → a < (m.width : Int) → 0 ≤ b → b < (m.height : Int) →
      (m.setBlock x y t c).cells a b = m.cells a b := by
  unfold BlockMap.setBlock
  split_ifs with h1 h2 h3
  · refine ⟨rfl, rfl, ?_⟩
    intro a b _ _ hb0 _
    have hy : y < 0 := by omega
    simp only []
    rw [if_neg]
    intro hc
    omega
  · exact ⟨rfl, rfl, fun _ _ _ _ _ _ => rfl⟩
  · exact ⟨rfl, rfl, fun _ _ _ _ _ _ => rfl⟩
  · exact ⟨rfl, rfl, fun _ _ _ _ _ _ => rfl⟩

/-- C4 witness: writing at `(5, 1)` on a 3×3 grid changes nothing visible:
dimensions are kept and the in-bounds cell `(1, 2)` keeps its value. -/
theorem claim_C4_witness :
    ((mkBlockMap 3 3).setBlock 5 1 7 "#000000").width = 3 ∧
    ((mkBlockMap 3 3).setBlock 5 1 7 "#000000").height = 3 ∧
    ((mkBlockMap 3 3).setBlock 5 1 7 "#000000").cells 1 2 = (mkBlockMap 3 3).cells 1 2 :=
  ⟨(claim_C4 (mkBlockMap 3 3) 5 1 7 "#000000" (by right; right; left; decide)).1,
    (claim_C4 (mkBlockMap 3 3) 5 1 7 "#000000" (by right; right; left; decide)).2.1,
    (claim_C4 (mkBlockMap 3 3) 5 1 7 "#000000" (by right; right; left; decide)).2.2 1 2
      (by decide) (by decide) (by decide) (by decide)⟩

/-- C9: writing an in-bounds cell and reading it back returns exactly the
written colour and thickness. -/
theorem claim_C9 (m : BlockMap) (x y t : Int) (c : String)
    (hx0 : 0 ≤ x) (hxw : x < (m.width : Int)) (hy0 : 0 ≤ y) (hyh : y < (m.height : Int)) :
    (m.setBlock x y t c).getBlock x y = Except.ok (some ⟨c, t⟩) := by
  unfold BlockMap.setBlock BlockMap.getBlock
  rw [if_pos hxw, if_pos hx0, if_pos hyh]
  simp only []
  rw [if_pos (by omega : x ≤ (m.width : Int)), if_pos ⟨hx0, hxw⟩,
    if_pos (by omega : y ≤ (m.height : Int))]
  simp

/-- C9 witness: round-trip at `(1, 2)` on a 3×4 grid. -/
theorem claim_C9_witness :
    ((mkBlockMap 3 4).setBlock 1 2 4 "#123456").getBlock 1 2 = Except.ok (some ⟨"#123456", 4⟩) :=
  claim_C9 (mkBlockMap 3 4) 1 2 4 "#123456" (by decide) (by decide) (by decide) (by decide)

end TreeFractal

namespace TreeFractal

/-! ## Tree generation claims -/

/-- Segment count of the full recursive expansion: a call at depth `n`
issues `2^n - 1` `drawLine` calls. -/
theorem drawTree_length (env : TreeEnv) :
    ∀ (n : Nat) (x y a : ℚ) (path : List Bool),
      (drawTree env x y a n path).length = 2 ^ n - 1 := by
  intro n
  induction n with
  | zero => intro x y a path; rfl
  | succ k ih =>
    intro x y a path
    simp only [drawTree, List.length_cons, List.length_append, ih]
    rw [pow_succ]
    have h1 : 1 ≤ 2 ^ k := Nat.one_le_two_pow
    omega

/-- Thickness census of the full recursive expansion: a call at depth `n`
draws exactly `2^(n-d)` segments of thickness `d` for each `1 ≤ d ≤ n`, and
none of any other thickness. -/
theorem drawTree_thickCount (env : TreeEnv) (d : Int) :
    ∀ (n : Nat) (x y a : ℚ) (path : List Bool),
      ((drawTree env x y a n path).filter (fun s => decide (s.thickness = d))).length =
        if 1 ≤ d ∧ d ≤ (n : Int) then 2 ^ ((n : Int) - d).toNat else 0 := by
  intro n
  induction n with
  | zero =>
    intro x y a path
    rw [if_neg (by omega)]
    rfl
  | succ k ih =>
    intro x y a path
    simp only [drawTree, List.filter_cons, List.filter_append]
    by_cases hd : ((k + 1 : Nat) : Int) = d
    · subst hd
      rw [if_pos (by simp)]
      simp only [List.length_cons, List.length_append, ih]
      rw [if_neg (by omega), if_pos (by omega),
        show (((k + 1 : Nat) : Int) - ((k + 1 : Nat) : Int)).toNat = 0 by omega]
      rfl
    · rw [if_neg (by simpa using hd)]
      simp only [List.length_append, ih]
      by_cases hdk : 1 ≤ d ∧ d ≤ (k : Int)
      · rw [if_pos hdk, if_pos (by omega)]
        rw [show (((k + 1 : Nat) : Int) - d).toNat = ((k : Int) - d).toNat + 1 by omega, pow_succ]
        omega
      · rw [if_neg hdk, if_neg (by omega)]

/-- C5: a `drawBranch` call at positive depth `N` issues exactly `2^N - 1`
line-drawing calls across its full recursive expansion, and the thicknesses
match the depth of the issuing call: for each depth `d` with `1 ≤ d ≤ N`
there are exactly `2^(N-d)` segments of thickness `d` (the depth-`d` calls),
and no segment of any other thickness. -/
theorem claim_C5 (env : TreeEnv) (x y a : ℚ) (N : Nat) (hN : 0 < N) (path : List Bool) :
    (drawTree env x y a N path).length = 2 ^ N - 1 ∧
    ∀ d : Int,
      ((drawTree env x y a N path).filter (fun s => decide (s.thickness = d))).length =
        if 1 ≤ d ∧ d ≤ (N : Int) then 2 ^ ((N : Int) - d).toNat else 0 :=
  ⟨drawTree_length env N x y a path, fun d => drawTree_thickCount env d N x y a path⟩

/-- C5 witness: at depth 2 the tree issues `2^2 - 1 = 3` calls, and the
thickness-1 census instance of the theorem holds: `2^(2-1) = 2` segments of
thickness 1. -/
theorem claim_C5_witness :
    0 < 2 ∧
    (drawTree envZero 0 0 0 2 []).length = 2 ^ 2 - 1 ∧
    ((drawTree envZero 0 0 0 2 []).filter (fun s => decide (s.thickness = (1 : Int)))).length =
      if 1 ≤ (1 : Int) ∧ (1 : Int) ≤ (2 : Int) then 2 ^ ((2 : Int) - 1).toNat else 0 :=
  ⟨by decide, (claim_C5 envZero 0 0 0 2 (by decide) []).1,
    (claim_C5 envZero 0 0 0 2 (by decide) []).2 1⟩

/-- C7: a `drawBranch` call with `depth = 0` is terminal: it issues no
`drawLine` call and replaying it leaves the grid unchanged. -/
theorem claim_C7 (env : TreeEnv) (m : BlockMap) (x y a : ℚ) (path : List Bool) :
    drawTree env x y a 0 path = [] ∧ paintSegments m (drawTree env x y a 0 path) = m :=
  ⟨rfl, rfl⟩

end TreeFractal

namespace TreeFractal

/-- Colour discipline of every segment drawn by `drawTree`, assuming every
`Math.random()` colour draw lies in `[0, 1)`: depth (= thickness) at least 3
gives solid black, depth below 3 gives `'#'` followed by the unpadded hex
digits of an integer below `0xFFFFFF`. -/
theorem drawTree_colorSpec (env : TreeEnv)
    (hr : ∀ p, 0 ≤ env.colorRand p ∧ env.colorRand p < 1) :
    ∀ (n : Nat) (x y a : ℚ) (path : List Bool) (s : Segment),
      s ∈ drawTree env x y a n path →
        (3 ≤ s.thickness → s.color = "#000000") ∧
        (s.thickness < 3 → ∃ v : Nat, v < 16777215 ∧ s.color = "#" ++ hexString v) := by
  intro n
  induction n with
  | zero =>
    intro x y a path s hs
    simp [drawTree] at hs
  | succ k ih =>
    intro x y a path s hs
    simp only [drawTree, List.mem_cons, List.mem_append] at hs
    rcases hs with hs | hs | hs
    · subst hs
      by_cases h3 : (k + 1 : Nat) < 3
      · constructor
        · intro hthick
          exfalso
          simp only at hthick
          omega
        · intro _
          obtain ⟨h0, h1⟩ := hr path
          refine ⟨(⌊env.colorRand path * 16777215⌋).toNat, ?_, ?_⟩
          · have hlt : ⌊env.colorRand path * 16777215⌋ < 16777215 := by
              apply Int.floor_lt.mpr
              push_cast
              nlinarith
            have hge : 0 ≤ ⌊env.colorRand path * 16777215⌋ :=
              Int.floor_nonneg.mpr (by positivity)
            omega
          · simp only [if_pos h3]
            rfl
      · constructor
        · intro _
          simp only [if_neg h3]
        · intro hthick
          exfalso
          simp only at hthick
          omega
    · exact ih _ _ _ _ s hs
    · exact ih _ _ _ _ s hs

/-- C6 counterexample: with a colour draw of `255/16777215` the depth-1
branch is painted `"#ff"` — `toString(16)` does not zero-pad — which is not
of the 7-character `#RRGGBB` form the claim asserts for every painted cell. -/
theorem claim_C6_cex :
    (drawTree envFF 0 0 0 1 []).map Segment.color = ["#ff"] ∧ ¬ isSixHexColor "#ff" := by
  constructor
  · have h : drawTree envFF 0 0 0 1 [] =
        [⟨0, 0, 0, 0, 1, "#ff"⟩] := by
      show drawTree envFF 0 0 0 (0 + 1) [] = _
      simp [drawTree, envFF, leafColor]
      rfl
    rw [h]
    rfl
  · intro h
    exact absurd h.1 (by decide)

/-- C6 (amended): branches of depth (= thickness) at least 3 are drawn with
`"#000000"`; branches of depth below 3 are drawn with `'#'` followed by the
*unpadded* lowercase base-16 digits of an independently drawn integer in
`[0, 0xFFFFFF)` — between 1 and 6 digits, so not always of the `#RRGGBB`
form (the original claim's "in every case `#RRGGBB`" fails, see
`claim_C6_cex`).  Assumes each `Math.random()` draw lies in `[0, 1)`. -/
theorem claim_C6 (env : TreeEnv)
    (hr : ∀ p, 0 ≤ env.colorRand p ∧ env.colorRand p < 1)
    (x y a : ℚ) (N : Nat) (path : List Bool) :
    ∀ s ∈ drawTree env x y a N path,
      (3 ≤ s.thickness → s.color = "#000000") ∧
      (s.thickness < 3 → ∃ v : Nat, v < 16777215 ∧ s.color = "#" ++ hexString v) :=
  fun s hs => drawTree_colorSpec env hr N x y a path s hs

/-- The depth-1 tree of the all-zero environment: one segment, painted with
the leaf colour `"#0"` (the hex digits of `⌊0 * 0xFFFFFF⌋ = 0`). -/
theorem ex_tree1 : drawTree envZero 0 0 0 1 [] = [⟨0, 0, 0, 0, 1, "#0"⟩] := by
  show drawTree envZero 0 0 0 (0 + 1) [] = _
  simp [drawTree, envZero, leafColor]
  rfl

/-- C6 witness: the random-draw hypothesis holds for the all-zero
environment, and the theorem applies to the one segment of its depth-1
tree (a leaf, coloured `"#0"`). -/
theorem claim_C6_witness :
    (3 ≤ (Segment.mk 0 0 0 0 1 "#0").thickness → (Segment.mk 0 0 0 0 1 "#0").color = "#000000") ∧
    ((Segment.mk 0 0 0 0 1 "#0").thickness < 3 →
      ∃ v : Nat, v < 16777215 ∧ (Segment.mk 0 0 0 0 1 "#0").color = "#" ++ hexString v) :=
  claim_C6 envZero (fun p => by constructor <;> norm_num [envZero]) 0 0 0 1 []
    ⟨0, 0, 0, 0, 1, "#0"⟩ (by rw [ex_tree1]; exact List.mem_singleton_self _)

end TreeFractal

namespace TreeFractal

theorem lineInvX (dx dy sx sy a b : Int) (hdy : 0 ≤ dy) (hlt : dy < dx) :
    ∀ k : Nat, (k : Int) ≤ dx →
      ∃ j : Nat, (j : Int) ≤ dy ∧ j ≤ k ∧
        (lineStep dx dy sx sy)^[k] ⟨a, b, (dx : ℚ) / 2⟩ =
          ⟨a + sx * k, b + sy * j, (dx : ℚ) / 2 - (k : ℚ) * (dy : ℚ) + (j : ℚ) * (dx : ℚ)⟩ ∧
        0 ≤ (dx : ℚ) / 2 - (k : ℚ) * (dy : ℚ) + (j : ℚ) * (dx : ℚ) ∧
        (dx : ℚ) / 2 - (k : ℚ) * (dy : ℚ) + (j : ℚ) * (dx : ℚ) < (dx : ℚ) := by
  have hdx0 : (0 : ℚ) < (dx : ℚ) := by exact_mod_cast lt_of_le_of_lt hdy hlt
  have hdyq : (0 : ℚ) ≤ (dy : ℚ) := by exact_mod_cast hdy
  have hltq : (dy : ℚ) < (dx : ℚ) := by exact_mod_cast hlt
  intro k
  induction k with
  | zero =>
    intro _
    refine ⟨0, by exact_mod_cast hdy, Nat.le_refl 0, by simp, by push_cast; linarith, by push_cast; linarith⟩
  | succ k ih =>
    intro hk1
    have hk : (k : Int) ≤ dx := by push_cast at hk1 ⊢; omega
    obtain ⟨j, hjdy, hjk, hst, h0, h1⟩ := ih hk
    rw [Function.iterate_succ_apply', hst]
    have hxfire : ((dx : ℚ) / 2 - (k : ℚ) * (dy : ℚ) + (j : ℚ) * (dx : ℚ)) > -(dx : ℚ) := by linarith
    by_cases hy : ((dx : ℚ) / 2 - (k : ℚ) * (dy : ℚ) + (j : ℚ) * (dx : ℚ)) < (dy : ℚ)
    · have herr : (dx : ℚ) / 2 - ((k : Nat) + 1 : ℚ) * (dy : ℚ) + ((j : Nat) + 1 : ℚ) * (dx : ℚ)
          = ((dx : ℚ) / 2 - (k : ℚ) * (dy : ℚ) + (j : ℚ) * (dx : ℚ)) - (dy : ℚ) + (dx : ℚ) := by
        ring
    -- j + 1 ≤ dy
      have hjlt : (j : Int) < dy := by
        by_contra hcon
        have hj_eq : (j : Int) = dy := by omega
        have hjq : (j : ℚ) = (dy : ℚ) := by exact_mod_cast hj_eq
        have hkdx : (k : ℚ) ≤ (dx : ℚ) - 1 := by
          have hx : (k : Int) ≤ dx - 1 := by omega
          exact_mod_cast hx
        rw [hjq] at hy
        nlinarith
      refine ⟨j + 1, by push_cast; omega, by omega, ?_, ?_, ?_⟩
      · simp only [lineStep, if_pos hxfire, if_pos hy]
        simp only [LineState.mk.injEq]
        refine ⟨by push_cast; try ring, by push_cast; try ring, by push_cast; try ring⟩
      · push_cast
        push_cast at herr
        rw [herr]
        linarith
      · push_cast
        push_cast at herr
        rw [herr]
        linarith
    · have herr : (dx : ℚ) / 2 - ((k : Nat) + 1 : ℚ) * (dy : ℚ) + ((j : Nat) : ℚ) * (dx : ℚ)
          = ((dx : ℚ) / 2 - (k : ℚ) * (dy : ℚ) + (j : ℚ) * (dx : ℚ)) - (dy : ℚ) := by
        ring
      push_neg at hy
      refine ⟨j, hjdy, by omega, ?_, ?_, ?_⟩
      · simp only [lineStep, if_pos hxfire, if_neg (not_lt.mpr hy)]
        simp only [LineState.mk.injEq]
        refine ⟨by push_cast; try ring, by push_cast; try ring, by push_cast; try ring⟩
      · push_cast
        push_cast at herr
        rw [herr]
        linarith
      · push_cast
        push_cast at herr
        rw [herr]
        linarith

end TreeFractal

namespace TreeFractal

theorem lineInvY (dx dy sx sy a b : Int) (hdx : 0 ≤ dx) (hle : dx ≤ dy) (hdy : 0 < dy) :
    ∀ k : Nat, (k : Int) ≤ dy →
      ∃ i : Nat, (i : Int) ≤ dx ∧ i ≤ k ∧
        (lineStep dx dy sx sy)^[k] ⟨a, b, -(dy : ℚ) / 2⟩ =
          ⟨a + sx * i, b + sy * k, -(dy : ℚ) / 2 - (i : ℚ) * (dy : ℚ) + (k : ℚ) * (dx : ℚ)⟩ ∧
        -(dy : ℚ) < -(dy : ℚ) / 2 - (i : ℚ) * (dy : ℚ) + (k : ℚ) * (dx : ℚ) ∧
        -(dy : ℚ) / 2 - (i : ℚ) * (dy : ℚ) + (k : ℚ) * (dx : ℚ) ≤ 0 := by
  have hdy0 : (0 : ℚ) < (dy : ℚ) := by exact_mod_cast hdy
  have hdxq : (0 : ℚ) ≤ (dx : ℚ) := by exact_mod_cast hdx
  have hleq : (dx : ℚ) ≤ (dy : ℚ) := by exact_mod_cast hle
  intro k
  induction k with
  | zero =>
    intro _
    refine ⟨0, by exact_mod_cast hdx, Nat.le_refl 0, by simp, by push_cast; linarith,
      by push_cast; linarith⟩
  | succ k ih =>
    intro hk1
    have hk : (k : Int) ≤ dy := by push_cast at hk1 ⊢; omega
    obtain ⟨i, hidx, hik, hst, h0, h1⟩ := ih hk
    rw [Function.iterate_succ_apply', hst]
    have hyfire : (-(dy : ℚ) / 2 - (i : ℚ) * (dy : ℚ) + (k : ℚ) * (dx : ℚ)) < (dy : ℚ) := by
      linarith
    by_cases hx : (-(dy : ℚ) / 2 - (i : ℚ) * (dy : ℚ) + (k : ℚ) * (dx : ℚ)) > -(dx : ℚ)
    · have herr : -(dy : ℚ) / 2 - ((i : Nat) + 1 : ℚ) * (dy : ℚ) + ((k : Nat) + 1 : ℚ) * (dx : ℚ)
          = (-(dy : ℚ) / 2 - (i : ℚ) * (dy : ℚ) + (k : ℚ) * (dx : ℚ)) - (dy : ℚ) + (dx : ℚ) := by
        ring
      have hilt : (i : Int) < dx := by
        by_contra hcon
        have hi_eq : (i : Int) = dx := by omega
        have hiq : (i : ℚ) = (dx : ℚ) := by exact_mod_cast hi_eq
        have hkdy : (k : ℚ) ≤ (dy : ℚ) - 1 := by
          have hxk : (k : Int) ≤ dy - 1 := by omega
          exact_mod_cast hxk
        rw [hiq] at hx
        nlinarith
      refine ⟨i + 1, by push_cast; omega, by omega, ?_, ?_, ?_⟩
      · simp only [lineStep, if_pos hx, if_pos hyfire]
        simp only [LineState.mk.injEq]
        refine ⟨by push_cast; try ring, by push_cast; try ring, by push_cast; try ring⟩
      · push_cast
        push_cast at herr
        rw [herr]
        linarith
      · push_cast
        push_cast at herr
        rw [herr]
        linarith
    · have herr : -(dy : ℚ) / 2 - ((i : Nat) : ℚ) * (dy : ℚ) + ((k : Nat) + 1 : ℚ) * (dx : ℚ)
          = (-(dy : ℚ) / 2 - (i : ℚ) * (dy : ℚ) + (k : ℚ) * (dx : ℚ)) + (dx : ℚ) := by
        ring
      push_neg at hx
      refine ⟨i, hidx, by omega, ?_, ?_, ?_⟩
      · simp only [lineStep, if_neg (not_lt.mpr hx), if_pos hyfire]
        simp only [LineState.mk.injEq]
        refine ⟨by push_cast; try ring, by push_cast; try ring, by push_cast; try ring⟩
      · push_cast
        push_cast at herr
        rw [herr]
        linarith
      · push_cast
        push_cast at herr
        rw [herr]
        linarith

end TreeFractal

namespace TreeFractal

theorem setBlock_width (m : BlockMap) (x y t : Int) (c : String) :
    (m.setBlock x y t c).width = m.width := by
  unfold BlockMap.setBlock
  split_ifs <;> rfl

theorem setBlock_height (m : BlockMap) (x y t : Int) (c : String) :
    (m.setBlock x y t c).height = m.height := by
  unfold BlockMap.setBlock
  split_ifs <;> rfl

theorem setBlock_cells (m : BlockMap) (x y t : Int) (c : String) (a b : Int) :
    (m.setBlock x y t c).cells a b =
      if 0 ≤ x ∧ x < (m.width : Int) ∧ y < (m.height : Int) ∧ a = x ∧ b = y then some ⟨c, t⟩
      else m.cells a b := by
  unfold BlockMap.setBlock
  by_cases h1 : x < (m.width : Int)
  · rw [if_pos h1]
    by_cases h2 : 0 ≤ x
    · rw [if_pos h2]
      by_cases h3 : y < (m.height : Int)
      · rw [if_pos h3]
        simp only []
        by_cases hab : a = x ∧ b = y
        · rw [if_pos hab, if_pos ⟨h2, h1, h3, hab.1, hab.2⟩]
        · rw [if_neg hab, if_neg fun hc => hab ⟨hc.2.2.2.1, hc.2.2.2.2⟩]
      · rw [if_neg h3, if_neg fun hc => h3 hc.2.2.1]
    · rw [if_neg h2, if_neg fun hc => h2 hc.1]
  · rw [if_neg h1, if_neg fun hc => h1 hc.2.1]

theorem paintList_width (t : Int) (c : String) :
    ∀ (L : List (Int × Int)) (m : BlockMap), (paintList m t c L).width = m.width := by
  intro L
  induction L with
  | nil => intro m; rfl
  | cons p L ih =>
    intro m
    show (paintList (m.setBlock p.1 p.2 t c) t c L).width = m.width
    rw [ih, setBlock_width]

theorem paintList_height (t : Int) (c : String) :
    ∀ (L : List (Int × Int)) (m : BlockMap), (paintList m t c L).height = m.height := by
  intro L
  induction L with
  | nil => intro m; rfl
  | cons p L ih =>
    intro m
    show (paintList (m.setBlock p.1 p.2 t c) t c L).height = m.height
    rw [ih, setBlock_height]

theorem paintList_cells_notMem (t : Int) (c : String) (a b : Int) :
    ∀ (L : List (Int × Int)) (m : BlockMap), (a, b) ∉ L →
      (paintList m t c L).cells a b = m.cells a b := by
  intro L
  induction L with
  | nil => intro m _; rfl
  | cons p L ih =>
    intro m hab
    show (paintList (m.setBlock p.1 p.2 t c) t c L).cells a b = m.cells a b
    rw [ih _ (fun h => hab (List.mem_cons_of_mem _ h)), setBlock_cells]
    rw [if_neg]
    intro hc
    exact hab (by rw [show (a, b) = p from Prod.ext hc.2.2.2.1 hc.2.2.2.2]; exact List.mem_cons_self p L)

theorem paintList_cells_mem (t : Int) (c : String) (a b : Int) :
    ∀ (L : List (Int × Int)) (m : BlockMap),
      (∀ p ∈ L, 0 ≤ p.1 ∧ p.1 < (m.width : Int) ∧ p.2 < (m.height : Int)) →
      (a, b) ∈ L →
      (paintList m t c L).cells a b = some ⟨c, t⟩ := by
  intro L
  induction L with
  | nil => intro m _ hab; exact absurd hab (List.not_mem_nil _)
  | cons p L ih =>
    intro m hin hab
    show (paintList (m.setBlock p.1 p.2 t c) t c L).cells a b = some ⟨c, t⟩
    by_cases hmem : (a, b) ∈ L
    · refine ih _ ?_ hmem
      intro q hq
      rw [setBlock_width, setBlock_height]
      exact hin q (List.mem_cons_of_mem _ hq)
    · have hp : (a, b) = p := by
        rcases List.mem_cons.mp hab with h | h
        · exact h
        · exact absurd h hmem
      rw [paintList_cells_notMem t c a b L _ hmem, setBlock_cells]
      obtain ⟨hq1, hq2, hq3⟩ := hin p (List.mem_cons_self p L)
      rw [if_pos ⟨hq1, hq2, hq3, congrArg Prod.fst hp, congrArg Prod.snd hp⟩]

end TreeFractal

namespace TreeFractal

theorem loop_run (tx ty : Int) (step : LineState → LineState) (t : Int) (c : String) :
    ∀ (n : Nat) (s : LineState) (m : BlockMap) (extra : Nat),
      (step^[n] s).x = tx → (step^[n] s).y = ty →
      (∀ k, k < n → ¬((step^[k] s).x = tx ∧ (step^[k] s).y = ty)) →
      lineLoop tx ty step t c (n + 1 + extra) s m =
        paintList m t c ((List.range n).map fun k => ((step^[k] s).x, (step^[k] s).y)) := by
  intro n
  induction n with
  | zero =>
    intro s m extra hx hy _
    rw [show (0 : Nat) + 1 + extra = extra + 1 by omega]
    simp only [lineLoop]
    rw [if_pos ⟨hx, hy⟩]
    rfl
  | succ n ih =>
    intro s m extra hx hy hne
    rw [show n + 1 + 1 + extra = (n + 1 + extra) + 1 by omega]
    simp only [lineLoop]
    rw [if_neg (by simpa using hne 0 (Nat.succ_pos n))]
    have hx' : (step^[n] (step s)).x = tx := by
      rw [← Function.iterate_succ_apply]; exact hx
    have hy' : (step^[n] (step s)).y = ty := by
      rw [← Function.iterate_succ_apply]; exact hy
    have hne' : ∀ k, k < n → ¬((step^[k] (step s)).x = tx ∧ (step^[k] (step s)).y = ty) := by
      intro k hk
      rw [← Function.iterate_succ_apply]
      exact hne (k + 1) (by omega)
    rw [ih (step s) (m.setBlock s.x s.y t c) extra hx' hy' hne']
    rw [List.range_succ_eq_map, List.map_cons, List.map_map]
    rfl

end TreeFractal

namespace TreeFractal

theorem jsAbs_nonneg (a : Int) : 0 ≤ jsAbs a := by
  unfold jsAbs; split <;> omega

theorem sign_reach (u v : Int) : u + (if u < v then (1 : Int) else -1) * jsAbs (v - u) = v := by
  unfold jsAbs
  by_cases h1 : u < v <;> by_cases h2 : v - u < 0 <;> simp [h1, h2] <;> omega

theorem sign_progress (u v : Int) (k : Nat) (hk : (k : Int) < jsAbs (v - u)) :
    u + (if u < v then (1 : Int) else -1) * (k : Int) ≠ v := by
  unfold jsAbs at hk
  by_cases h1 : u < v <;> by_cases h2 : v - u < 0 <;> simp [h1, h2] at hk ⊢ <;> omega

theorem sign_inb (u v lo hi : Int) (k : Nat) (hk : (k : Int) ≤ jsAbs (v - u))
    (hu1 : lo ≤ u) (hu2 : u < hi) (hv1 : lo ≤ v) (hv2 : v < hi) :
    lo ≤ u + (if u < v then (1 : Int) else -1) * (k : Int) ∧
      u + (if u < v then (1 : Int) else -1) * (k : Int) < hi := by
  unfold jsAbs at hk
  by_cases h1 : u < v <;> by_cases h2 : v - u < 0 <;> simp [h1, h2] at hk ⊢ <;> omega

theorem lineState_eq_iter (x0 x1 y0 y1 : Int) :
    ∀ k, lineState x0 x1 y0 y1 k = (lineStepOf x0 x1 y0 y1)^[k] (lineStart x0 x1 y0 y1) := by
  intro k
  induction k with
  | zero => rfl
  | succ k ih =>
    rw [Function.iterate_succ_apply']
    exact congrArg _ ih

/-- Termination of the `drawLine` loop: starting from `lineStart`, the exit
condition `x0 === x1 && y0 === y1` first holds after exactly
`lineN = max(|x1-x0|, |y1-y0|)` iterations of the body — it holds there, and
at no earlier iteration. -/
theorem lineState_terminates (x0 x1 y0 y1 : Int) :
    ((lineState x0 x1 y0 y1 (lineN x0 x1 y0 y1)).x = x1 ∧
      (lineState x0 x1 y0 y1 (lineN x0 x1 y0 y1)).y = y1) ∧
    ∀ k, k < lineN x0 x1 y0 y1 →
      ¬((lineState x0 x1 y0 y1 k).x = x1 ∧ (lineState x0 x1 y0 y1 k).y = y1) := by
  by_cases hxy : jsAbs (y1 - y0) < jsAbs (x1 - x0)
  · -- dominant x
    have hN : lineN x0 x1 y0 y1 = (jsAbs (x1 - x0)).toNat := by
      unfold lineN
      rw [max_eq_left (le_of_lt hxy)]
    have hstart : lineStart x0 x1 y0 y1 = ⟨x0, y0, ((jsAbs (x1 - x0) : Int) : ℚ) / 2⟩ := by
      unfold lineStart
      rw [if_pos hxy]
    have hdxc : (((jsAbs (x1 - x0)).toNat : Nat) : Int) = jsAbs (x1 - x0) :=
      Int.toNat_of_nonneg (jsAbs_nonneg _)
    have hinv := lineInvX (jsAbs (x1 - x0)) (jsAbs (y1 - y0))
      (if x0 < x1 then 1 else -1) (if y0 < y1 then 1 else -1) x0 y0 (jsAbs_nonneg _) hxy
    constructor
    · rw [hN, lineState_eq_iter, hstart]
      unfold lineStepOf
      obtain ⟨j, hjdy, hjk, hst, h0, h1⟩ := hinv (jsAbs (x1 - x0)).toNat (by rw [hdxc])
      have hdxq : (((jsAbs (x1 - x0)).toNat : Nat) : ℚ) = ((jsAbs (x1 - x0) : Int) : ℚ) := by
        rw [← hdxc]
        exact (Int.cast_natCast _).symm
      have hj_eq : (j : Int) = jsAbs (y1 - y0) := by
        by_contra hcon
        have hj1 : (j : Int) ≤ jsAbs (y1 - y0) - 1 := by omega
        have hj1q : (j : ℚ) ≤ ((jsAbs (y1 - y0) : Int) : ℚ) - 1 := by exact_mod_cast hj1
        rw [hdxq] at h0
        have hdx1 : (1 : ℚ) ≤ ((jsAbs (x1 - x0) : Int) : ℚ) := by
          have : (1 : Int) ≤ jsAbs (x1 - x0) := by
            have := jsAbs_nonneg (y1 - y0); omega
          exact_mod_cast this
        have hdy0 : (0 : ℚ) ≤ ((jsAbs (y1 - y0) : Int) : ℚ) := by
          exact_mod_cast jsAbs_nonneg (y1 - y0)
        nlinarith
      rw [hst]
      constructor
      · show x0 + (if x0 < x1 then (1 : Int) else -1) * ((jsAbs (x1 - x0)).toNat : Int) = x1
        rw [hdxc]
        exact sign_reach x0 x1
      · show y0 + (if y0 < y1 then (1 : Int) else -1) * (j : Int) = y1
        rw [hj_eq]
        exact sign_reach y0 y1
    · intro k hk
      rw [lineState_eq_iter, hstart]
      unfold lineStepOf
      rw [hN] at hk
      obtain ⟨j, hjdy, hjk, hst, h0, h1⟩ := hinv k (by omega)
      rw [hst]
      intro hcon
      exact sign_progress x0 x1 k (by omega) hcon.1
  · -- dominant y (or degenerate)
    push_neg at hxy
    by_cases hdy : 0 < jsAbs (y1 - y0)
    · have hN : lineN x0 x1 y0 y1 = (jsAbs (y1 - y0)).toNat := by
        unfold lineN
        rw [max_eq_right hxy]
      have hstart : lineStart x0 x1 y0 y1 = ⟨x0, y0, -((jsAbs (y1 - y0) : Int) : ℚ) / 2⟩ := by
        unfold lineStart
        rw [if_neg (not_lt.mpr hxy)]
      have hdyc : (((jsAbs (y1 - y0)).toNat : Nat) : Int) = jsAbs (y1 - y0) :=
        Int.toNat_of_nonneg (jsAbs_nonneg _)
      have hinv := lineInvY (jsAbs (x1 - x0)) (jsAbs (y1 - y0))
        (if x0 < x1 then 1 else -1) (if y0 < y1 then 1 else -1) x0 y0 (jsAbs_nonneg _) hxy hdy
      constructor
      · rw [hN, lineState_eq_iter, hstart]
        unfold lineStepOf
        obtain ⟨i, hidx, hik, hst, h0, h1⟩ := hinv (jsAbs (y1 - y0)).toNat (by rw [hdyc])
        have hdyq : (((jsAbs (y1 - y0)).toNat : Nat) : ℚ) = ((jsAbs (y1 - y0) : Int) : ℚ) := by
          rw [← hdyc]
          exact (Int.cast_natCast _).symm
        have hi_eq : (i : Int) = jsAbs (x1 - x0) := by
          by_contra hcon
          have hi1 : (i : Int) ≤ jsAbs (x1 - x0) - 1 := by omega
          have hi1q : (i : ℚ) ≤ ((jsAbs (x1 - x0) : Int) : ℚ) - 1 := by exact_mod_cast hi1
          rw [hdyq] at h1
          have hdy1 : (1 : ℚ) ≤ ((jsAbs (y1 - y0) : Int) : ℚ) := by
            have : (1 : Int) ≤ jsAbs (y1 - y0) := by omega
            exact_mod_cast this
          have hdx0 : (0 : ℚ) ≤ ((jsAbs (x1 - x0) : Int) : ℚ) := by
            exact_mod_cast jsAbs_nonneg (x1 - x0)
          nlinarith
        rw [hst]
        constructor
        · show x0 + (if x0 < x1 then (1 : Int) else -1) * (i : Int) = x1
          rw [hi_eq]
          exact sign_reach x0 x1
        · show y0 + (if y0 < y1 then (1 : Int) else -1) * ((jsAbs (y1 - y0)).toNat : Int) = y1
          rw [hdyc]
          exact sign_reach y0 y1
      · intro k hk
        rw [lineState_eq_iter, hstart]
        unfold lineStepOf
        rw [hN] at hk
        obtain ⟨i, hidx, hik, hst, h0, h1⟩ := hinv k (by omega)
        rw [hst]
        intro hcon
        exact sign_progress y0 y1 k (by omega) hcon.2
    · -- degenerate: both deltas zero
      have hdy0 : jsAbs (y1 - y0) = 0 := by
        have := jsAbs_nonneg (y1 - y0); omega
      have hdx0 : jsAbs (x1 - x0) = 0 := by
        have := jsAbs_nonneg (x1 - x0); omega
      have hx : x1 = x0 := by
        unfold jsAbs at hdx0
        by_cases h : x1 - x0 < 0 <;> simp [h] at hdx0 <;> omega
      have hy : y1 = y0 := by
        unfold jsAbs at hdy0
        by_cases h : y1 - y0 < 0 <;> simp [h] at hdy0 <;> omega
      have hN : lineN x0 x1 y0 y1 = 0 := by
        unfold lineN
        rw [hdx0, hdy0]
        rfl
      rw [hN]
      refine ⟨⟨?_, ?_⟩, fun k hk => absurd hk (by omega)⟩
      · show (lineStart x0 x1 y0 y1).x = x1
        rw [hx]; rfl
      · show (lineStart x0 x1 y0 y1).y = y1
        rw [hy]; rfl

end TreeFractal

namespace TreeFractal

theorem lineStep_move (dx dy sx sy : Int) (s : LineState) :
    ((lineStep dx dy sx sy s).x = s.x ∨ (lineStep dx dy sx sy s).x = s.x + sx) ∧
    ((lineStep dx dy sx sy s).y = s.y ∨ (lineStep dx dy sx sy s).y = s.y + sy) := by
  unfold lineStep
  split_ifs <;> simp

theorem lineN_pos (x0 x1 y0 y1 : Int) (hne : ¬(x0 = x1 ∧ y0 = y1)) :
    0 < lineN x0 x1 y0 y1 := by
  unfold lineN jsAbs
  rcases Nat.eq_zero_or_pos (lineN x0 x1 y0 y1) with _ | h
  · by_cases h1 : x1 - x0 < 0 <;> by_cases h2 : y1 - y0 < 0 <;> simp [h1, h2] <;> omega
  · unfold lineN jsAbs at h
    exact h

theorem linePos_spec (x0 x1 y0 y1 : Int) (k : Nat) (hk : k ≤ lineN x0 x1 y0 y1) :
    ∃ i j : Nat, (i : Int) ≤ jsAbs (x1 - x0) ∧ (j : Int) ≤ jsAbs (y1 - y0) ∧
      (jsAbs (y1 - y0) < jsAbs (x1 - x0) → i = k) ∧
      (jsAbs (x1 - x0) ≤ jsAbs (y1 - y0) → j = k) ∧
      linePos x0 x1 y0 y1 k =
        (x0 + (if x0 < x1 then (1 : Int) else -1) * (i : Int),
          y0 + (if y0 < y1 then (1 : Int) else -1) * (j : Int)) := by
  by_cases hxy : jsAbs (y1 - y0) < jsAbs (x1 - x0)
  · have hN : lineN x0 x1 y0 y1 = (jsAbs (x1 - x0)).toNat := by
      unfold lineN
      rw [max_eq_left (le_of_lt hxy)]
    have hstart : lineStart x0 x1 y0 y1 = ⟨x0, y0, ((jsAbs (x1 - x0) : Int) : ℚ) / 2⟩ := by
      unfold lineStart
      rw [if_pos hxy]
    obtain ⟨j, hjdy, hjk, hst, h0, h1⟩ := lineInvX (jsAbs (x1 - x0)) (jsAbs (y1 - y0))
      (if x0 < x1 then 1 else -1) (if y0 < y1 then 1 else -1) x0 y0 (jsAbs_nonneg _) hxy
      k (by rw [hN] at hk; have := jsAbs_nonneg (x1 - x0); omega)
    refine ⟨k, j, by rw [hN] at hk; have := jsAbs_nonneg (x1 - x0); omega, hjdy, fun _ => rfl,
      fun hc => absurd hc (not_le.mpr hxy), ?_⟩
    unfold linePos
    rw [lineState_eq_iter, hstart]
    unfold lineStepOf
    rw [hst]
  · push_neg at hxy
    by_cases hdy : 0 < jsAbs (y1 - y0)
    · have hN : lineN x0 x1 y0 y1 = (jsAbs (y1 - y0)).toNat := by
        unfold lineN
        rw [max_eq_right hxy]
      have hstart : lineStart x0 x1 y0 y1 = ⟨x0, y0, -((jsAbs (y1 - y0) : Int) : ℚ) / 2⟩ := by
        unfold lineStart
        rw [if_neg (not_lt.mpr hxy)]
      obtain ⟨i, hidx, hik, hst, h0, h1⟩ := lineInvY (jsAbs (x1 - x0)) (jsAbs (y1 - y0))
        (if x0 < x1 then 1 else -1) (if y0 < y1 then 1 else -1) x0 y0 (jsAbs_nonneg _) hxy hdy
        k (by rw [hN] at hk; have := jsAbs_nonneg (y1 - y0); omega)
      refine ⟨i, k, hidx, by rw [hN] at hk; have := jsAbs_nonneg (y1 - y0); omega,
        fun hc => absurd hxy (not_le.mpr hc), fun _ => rfl, ?_⟩
      unfold linePos
      rw [lineState_eq_iter, hstart]
      unfold lineStepOf
      rw [hst]
    · have hdy0 : jsAbs (y1 - y0) = 0 := by
        have := jsAbs_nonneg (y1 - y0); omega
      have hdx0 : jsAbs (x1 - x0) = 0 := by
        have := jsAbs_nonneg (x1 - x0); omega
      have hN : lineN x0 x1 y0 y1 = 0 := by
        unfold lineN
        rw [hdx0, hdy0]
        rfl
      have hk0 : k = 0 := by omega
      subst hk0
      refine ⟨0, 0, by simp [hdx0], by simp [hdy0], fun _ => rfl, fun _ => rfl, ?_⟩
      simp [linePos, lineState, lineStart]

theorem lineTrace_eq_iterMap (x0 x1 y0 y1 : Int) :
    lineTrace x0 x1 y0 y1 = (List.range (lineN x0 x1 y0 y1)).map
      (fun k => (((lineStepOf x0 x1 y0 y1)^[k] (lineStart x0 x1 y0 y1)).x,
        ((lineStepOf x0 x1 y0 y1)^[k] (lineStart x0 x1 y0 y1)).y)) := by
  unfold lineTrace
  apply List.map_congr_left
  intro k _
  unfold linePos
  rw [lineState_eq_iter]

theorem drawLine_eq_paintList (m : BlockMap) (x0 x1 y0 y1 t : Int) (c : String) :
    m.drawLine x0 x1 y0 y1 t c = paintList m t c (lineTrace x0 x1 y0 y1) := by
  obtain ⟨⟨hx, hy⟩, hne⟩ := lineState_terminates x0 x1 y0 y1
  rw [lineState_eq_iter] at hx hy
  have hne' : ∀ k, k < lineN x0 x1 y0 y1 →
      ¬(((lineStepOf x0 x1 y0 y1)^[k] (lineStart x0 x1 y0 y1)).x = x1 ∧
        ((lineStepOf x0 x1 y0 y1)^[k] (lineStart x0 x1 y0 y1)).y = y1) := by
    intro k hk
    rw [← lineState_eq_iter]
    exact hne k hk
  have hrun := loop_run x1 y1 (lineStepOf x0 x1 y0 y1) t c (lineN x0 x1 y0 y1)
    (lineStart x0 x1 y0 y1) m 0 hx hy hne'
  rw [Nat.add_zero] at hrun
  unfold BlockMap.drawLine
  rw [hrun, lineTrace_eq_iterMap]

theorem drawLine_same (m : BlockMap) (x0 y0 t : Int) (c : String) :
    m.drawLine x0 x0 y0 y0 t c = m := by
  unfold BlockMap.drawLine
  have hN : lineN x0 x0 y0 y0 = 0 := by
    unfold lineN jsAbs
    simp
  rw [hN]
  simp only [lineLoop]
  rw [if_pos ⟨rfl, rfl⟩]

end TreeFractal

namespace TreeFractal

theorem lineTrace_length (x0 x1 y0 y1 : Int) :
    (lineTrace x0 x1 y0 y1).length = lineN x0 x1 y0 y1 := by
  unfold lineTrace
  rw [List.length_map, List.length_range]

theorem linePos_inj (x0 x1 y0 y1 : Int) (k k' : Nat)
    (hk : k ≤ lineN x0 x1 y0 y1) (hk' : k' ≤ lineN x0 x1 y0 y1)
    (heq : linePos x0 x1 y0 y1 k = linePos x0 x1 y0 y1 k') : k = k' := by
  obtain ⟨i, j, hiz, hjz, hdx, hdy, hpos⟩ := linePos_spec x0 x1 y0 y1 k hk
  obtain ⟨i', j', hiz', hjz', hdx', hdy', hpos'⟩ := linePos_spec x0 x1 y0 y1 k' hk'
  rw [hpos, hpos'] at heq
  rw [Prod.ext_iff] at heq
  obtain ⟨he1, he2⟩ := heq
  by_cases hxy : jsAbs (y1 - y0) < jsAbs (x1 - x0)
  · rw [hdx hxy, hdx' hxy] at *
    simp only [] at he1
    by_cases hlt : x0 < x1 <;> simp [hlt] at he1 <;> omega
  · push_neg at hxy
    rw [hdy hxy, hdy' hxy] at *
    simp only [] at he2
    by_cases hlt : y0 < y1 <;> simp [hlt] at he2 <;> omega

theorem lineTrace_nodup (x0 x1 y0 y1 : Int) : (lineTrace x0 x1 y0 y1).Nodup := by
  unfold lineTrace
  refine List.Nodup.map_on ?_ (List.nodup_range _)
  intro k hk k' hk' heq
  rw [List.mem_range] at hk hk'
  exact linePos_inj x0 x1 y0 y1 k k' (le_of_lt hk) (le_of_lt hk') heq

theorem lineTrace_chain (x0 x1 y0 y1 : Int) : (lineTrace x0 x1 y0 y1).Chain' adj8 := by
  unfold lineTrace
  rw [List.chain'_map]
  rcases Nat.eq_zero_or_pos (lineN x0 x1 y0 y1) with h0 | hpos
  · rw [h0]
    exact List.chain'_nil
  · obtain ⟨n, hn⟩ := Nat.exists_eq_succ_of_ne_zero (Nat.pos_iff_ne_zero.mp hpos)
    rw [hn, List.chain'_range_succ]
    intro k hkn
    have hmove := lineStep_move (jsAbs (x1 - x0)) (jsAbs (y1 - y0))
      (if x0 < x1 then 1 else -1) (if y0 < y1 then 1 else -1) (lineState x0 x1 y0 y1 k)
    have hsucc : lineState x0 x1 y0 y1 (k + 1) =
        lineStep (jsAbs (x1 - x0)) (jsAbs (y1 - y0))
          (if x0 < x1 then 1 else -1) (if y0 < y1 then 1 else -1)
          (lineState x0 x1 y0 y1 k) := rfl
    refine ⟨?_, ?_, ?_⟩
    · show |(lineState x0 x1 y0 y1 (k + 1)).x - (lineState x0 x1 y0 y1 k).x| ≤ 1
      rw [hsucc]
      rcases hmove.1 with h | h <;> rw [h] <;> by_cases hlt : x0 < x1 <;> simp [hlt]
    · show |(lineState x0 x1 y0 y1 (k + 1)).y - (lineState x0 x1 y0 y1 k).y| ≤ 1
      rw [hsucc]
      rcases hmove.2 with h | h <;> rw [h] <;> by_cases hlt : y0 < y1 <;> simp [hlt]
    · intro hcon
      have : k = k + 1 := linePos_inj x0 x1 y0 y1 k (k + 1)
        (by omega) (by omega) hcon
      omega

theorem lineTrace_head (x0 x1 y0 y1 : Int) (h : 0 < lineN x0 x1 y0 y1) :
    (lineTrace x0 x1 y0 y1).head? = some (x0, y0) := by
  unfold lineTrace
  obtain ⟨n, hn⟩ := Nat.exists_eq_succ_of_ne_zero (Nat.pos_iff_ne_zero.mp h)
  rw [hn, List.range_succ_eq_map]
  show some (linePos x0 x1 y0 y1 0) = some (x0, y0)
  rfl

theorem lineTrace_end_not_mem (x0 x1 y0 y1 : Int) : (x1, y1) ∉ lineTrace x0 x1 y0 y1 := by
  unfold lineTrace
  intro hmem
  obtain ⟨k, hk, heq⟩ := List.mem_map.mp hmem
  rw [List.mem_range] at hk
  obtain ⟨i, j, hiz, hjz, hdx, hdy, hpos⟩ := linePos_spec x0 x1 y0 y1 k (le_of_lt hk)
  rw [hpos, Prod.ext_iff] at heq
  obtain ⟨he1, he2⟩ := heq
  by_cases hxy : jsAbs (y1 - y0) < jsAbs (x1 - x0)
  · rw [hdx hxy] at he1
    have hklt : (k : Int) < jsAbs (x1 - x0) := by
      have hN : lineN x0 x1 y0 y1 = (jsAbs (x1 - x0)).toNat := by
        unfold lineN
        rw [max_eq_left (le_of_lt hxy)]
      rw [hN] at hk
      omega
    exact sign_progress x0 x1 k hklt he1
  · push_neg at hxy
    rw [hdy hxy] at he2
    have hklt : (k : Int) < jsAbs (y1 - y0) := by
      have hN : lineN x0 x1 y0 y1 = (jsAbs (y1 - y0)).toNat := by
        unfold lineN
        rw [max_eq_right hxy]
      rw [hN] at hk
      omega
    exact sign_progress y0 y1 k hklt he2

theorem drawLine_cells (m : BlockMap) (x0 x1 y0 y1 t : Int) (c : String)
    (hx0a : 0 ≤ x0) (hx0b : x0 < (m.width : Int)) (hy0a : 0 ≤ y0) (hy0b : y0 < (m.height : Int))
    (hx1a : 0 ≤ x1) (hx1b : x1 < (m.width : Int)) (hy1a : 0 ≤ y1) (hy1b : y1 < (m.height : Int)) :
    ∀ a b : Int, (m.drawLine x0 x1 y0 y1 t c).cells a b =
      if (a, b) ∈ lineTrace x0 x1 y0 y1 then some ⟨c, t⟩ else m.cells a b := by
  intro a b
  rw [drawLine_eq_paintList]
  by_cases hmem : (a, b) ∈ lineTrace x0 x1 y0 y1
  · rw [if_pos hmem]
    refine paintList_cells_mem t c a b _ m ?_ hmem
    intro p hp
    unfold lineTrace at hp
    obtain ⟨k, hk, hpk⟩ := List.mem_map.mp hp
    rw [List.mem_range] at hk
    obtain ⟨i, j, hiz, hjz, _, _, hpos⟩ := linePos_spec x0 x1 y0 y1 k (le_of_lt hk)
    rw [← hpk, hpos]
    have hxin := sign_inb x0 x1 0 (m.width : Int) i (by
      unfold jsAbs at hiz ⊢
      exact hiz) hx0a hx0b hx1a hx1b
    have hyin := sign_inb y0 y1 0 (m.height : Int) j (by
      unfold jsAbs at hjz ⊢
      exact hjz) hy0a hy0b hy1a hy1b
    exact ⟨hxin.1, hxin.2, hyin.2⟩
  · rw [if_neg hmem]
    exact paintList_cells_notMem t c a b _ m hmem

end TreeFractal

namespace TreeFractal

theorem ex_state0 : lineState 0 2 0 0 0 = ⟨0, 0, 1⟩ := by
  show lineStart 0 2 0 0 = _
  unfold lineStart jsAbs
  norm_num

theorem ex_state1 : lineState 0 2 0 0 1 = ⟨1, 0, 1⟩ := by
  show lineStepOf 0 2 0 0 (lineState 0 2 0 0 0) = _
  rw [ex_state0]
  unfold lineStepOf lineStep jsAbs
  norm_num

theorem ex_state2 : lineState 0 2 0 0 2 = ⟨2, 0, 1⟩ := by
  show lineStepOf 0 2 0 0 (lineState 0 2 0 0 1) = _
  rw [ex_state1]
  unfold lineStepOf lineStep jsAbs
  norm_num

theorem ex_state3 : lineState 0 2 0 0 3 = ⟨3, 0, 1⟩ := by
  show lineStepOf 0 2 0 0 (lineState 0 2 0 0 2) = _
  rw [ex_state2]
  unfold lineStepOf lineStep jsAbs
  norm_num

theorem ex_trace : lineTrace 0 2 0 0 = [(0, 0), (1, 0)] := by
  have h : lineN 0 2 0 0 = 2 := by simp [lineN, jsAbs]
  rw [lineTrace, h, show List.range 2 = [0, 1] from rfl]
  simp [linePos, ex_state0, ex_state1]

/-- C1 counterexample: for the in-bounds endpoints `(0,0)` and `(2,0)` of a
5×5 grid the painted path is `[(0,0), (1,0)]` — `max(|dx|,|dy|) = 2` cells,
not `max+1 = 3` — and the end cell `(2,0)` is left unpainted, contradicting
the claim that the end cell is painted and that `max+1` cells are visited. -/
theorem claim_C1_cex :
    lineTrace 0 2 0 0 = [(0, 0), (1, 0)] ∧
    ((mkBlockMap 5 5).drawLine 0 2 0 0 1 "#000000").cells 2 0 = none := by
  refine ⟨ex_trace, ?_⟩
  rw [drawLine_eq_paintList, ex_trace]
  decide

/-- C1 (amended): for distinct in-bounds integer endpoints, `drawLine`
paints exactly the cells of `lineTrace`: `max(|x1-x0|,|y1-y0|)` pairwise
distinct cells forming an 8-connected path that starts at `(x0, y0)` and
stops one step short of `(x1, y1)` — the end cell is *not* painted (the loop
tests its exit condition before painting).  Painted cells hold exactly the
given colour and thickness; all other cells are untouched. -/
theorem claim_C1 (m : BlockMap) (x0 x1 y0 y1 t : Int) (c : String)
    (hx0a : 0 ≤ x0) (hx0b : x0 < (m.width : Int)) (hy0a : 0 ≤ y0) (hy0b : y0 < (m.height : Int))
    (hx1a : 0 ≤ x1) (hx1b : x1 < (m.width : Int)) (hy1a : 0 ≤ y1) (hy1b : y1 < (m.height : Int))
    (hne : ¬(x0 = x1 ∧ y0 = y1)) :
    LineDrawOk m x0 x1 y0 y1 t c :=
  ⟨lineTrace_length x0 x1 y0 y1, lineTrace_nodup x0 x1 y0 y1, lineTrace_chain x0 x1 y0 y1,
    lineTrace_head x0 x1 y0 y1 (lineN_pos x0 x1 y0 y1 hne),
    lineTrace_end_not_mem x0 x1 y0 y1,
    drawLine_cells m x0 x1 y0 y1 t c hx0a hx0b hy0a hy0b hx1a hx1b hy1a hy1b⟩

/-- C1 witness: the amended specification holds concretely for the line
from `(0,0)` to `(2,1)` on a 5×5 grid. -/
theorem claim_C1_witness : LineDrawOk (mkBlockMap 5 5) 0 2 0 1 1 "#00ff00" :=
  claim_C1 (mkBlockMap 5 5) 0 2 0 1 1 "#00ff00" (by decide) (by decide) (by decide) (by decide)
    (by decide) (by decide) (by decide) (by decide) (by decide)

/-- C2 counterexample: the degenerate call `drawLine(3,3,4,4,...)` on a 5×5
grid paints nothing at all — the cell `(3,4)` stays empty and the grid is
unchanged — whereas the claim asserts exactly one painted cell at `(3,4)`. -/
theorem claim_C2_cex :
    ((mkBlockMap 5 5).drawLine 3 3 4 4 9 "#112233").cells 3 4 = none ∧
    (mkBlockMap 5 5).drawLine 3 3 4 4 9 "#112233" = mkBlockMap 5 5 := by
  rw [drawLine_same]
  exact ⟨rfl, rfl⟩

/-- C2 (amended): a degenerate `drawLine` call (both endpoints equal) paints
*no* cell and returns the grid unchanged: the `while` loop's exit condition
already holds before the first iteration, so `setBlock` is never reached. -/
theorem claim_C2 (m : BlockMap) (x0 y0 t : Int) (c : String) :
    m.drawLine x0 x0 y0 y0 t c = m :=
  drawLine_same m x0 y0 t c

/-- C8 counterexample: for endpoints `(0,0)` and `(2,0)` (so
`max(|dx|,|dy|) = 2`), the loop's exit condition holds after 2 body
iterations — the loop performs exactly `max` iterations, not `max+1`; the
state iterated 3 times is `x = 3`, past the target. -/
theorem claim_C8_cex :
    lineN 0 2 0 0 = 2 ∧
    ((lineState 0 2 0 0 2).x = 2 ∧ (lineState 0 2 0 0 2).y = 0) ∧
    ¬((lineState 0 2 0 0 3).x = 2 ∧ (lineState 0 2 0 0 3).y = 0) := by
  refine ⟨by simp [lineN, jsAbs], ?_, ?_⟩
  · rw [ex_state2]
    exact ⟨rfl, rfl⟩
  · rw [ex_state3]
    rintro ⟨h, -⟩
    exact absurd h (by decide)

/-- C8 (amended): for every pair of integer endpoints the `drawLine` loop
terminates, and it does so after exactly `max(|x1-x0|,|y1-y0|)` iterations
of the body (not `max+1`): the exit condition holds at iteration
`lineN = max(|dx|,|dy|)` and at no earlier iteration. -/
theorem claim_C8 (x0 x1 y0 y1 : Int) :
    ((lineState x0 x1 y0 y1 (lineN x0 x1 y0 y1)).x = x1 ∧
      (lineState x0 x1 y0 y1 (lineN x0 x1 y0 y1)).y = y1) ∧
    ∀ k, k < lineN x0 x1 y0 y1 →
      ¬((lineState x0 x1 y0 y1 k).x = x1 ∧ (lineState x0 x1 y0 y1 k).y = y1) :=
  lineState_terminates x0 x1 y0 y1

/-- C10: `drawLine` is frame-preserving for arbitrary integer endpoints:
any cell not among the positions it paints (`lineTrace`) keeps exactly its
previous value, present or absent. -/
theorem claim_C10 (m : BlockMap) (x0 x1 y0 y1 t : Int) (c : String) (a b : Int)
    (h : (a, b) ∉ lineTrace x0 x1 y0 y1) :
    (m.drawLine x0 x1 y0 y1 t c).cells a b = m.cells a b := by
  rw [drawLine_eq_paintList]
  exact paintList_cells_notMem t c a b _ m h

/-- C10 witness: the cell `(4,4)` is off the path of the line from `(0,0)`
to `(2,0)` and keeps its value. -/
theorem claim_C10_witness :
    ((mkBlockMap 5 5).drawLine 0 2 0 0 7 "#ff0000").cells 4 4 = (mkBlockMap 5 5).cells 4 4 :=
  claim_C10 (mkBlockMap 5 5) 0 2 0 0 7 "#ff0000" 4 4 (by rw [ex_trace]; decide)

end TreeFractal
